/-
Verification of the `resources/serverless/code-web.js` development server.

The JavaScript source is shallowly embedded below.  Conventions:

* POSIX paths are modelled as lists of segments (`List String`); the string
  form of an absolute segment list `[a, b]` is `"/a/b"`, so the source's
  check `filePath.indexOf(APP_ROOT + path.sep) === 0` (a string-prefix test
  against `root + "/"`) corresponds exactly to `appRoot` being a *proper*
  list prefix of the normalized segment list (segments never contain `/`
  after normalization, so segment boundaries and separator positions agree).
* `path.normalize` / `path.join` are modelled by `normRel` / `joinAbs`.
* The filesystem is an oracle `FsModel`; every handler returns, besides the
  HTTP response, the list of filesystem accesses (stat / read) it performed.
* `decodeURIComponent` is modelled as a partial function returning `none`
  exactly when the JavaScript builtin throws `URIError` (malformed percent
  escape or invalid UTF-8 byte sequence).  Handlers whose JavaScript body
  can let such an exception escape return `Option` results, `none` meaning
  the exception escaped the handler.
* `url.parse(req.url, true).query` is modelled as an association list from
  keys to the (already once URI-decoded) value lists, in encounter order;
  `for`-`in` enumeration over the object follows the ECMAScript
  own-property order (array-index keys ascending first, then the rest in
  creation order), modelled by `jsEnumKeys`.
-/
import Mathlib

namespace CodeWeb

/-! ### JavaScript truthiness for optional strings -/

/-- Truthiness of a JS value that is either `undefined` (`none`) or a string:
`undefined` and `""` are falsy, every other string is truthy. -/
def jsTruthy : Option String → Bool
  | none => false
  | some s => s != ""

/-! ### Percent decoding (`decodeURIComponent`)

The ECMAScript builtin decodes `%XX` escape sequences, requiring every
escape to have two hex digits and maximal runs of escaped bytes to form
valid (shortest-form, non-surrogate) UTF-8; otherwise it throws `URIError`.
-/

/-- Numeric value of a hex digit, `none` for a non-hex-digit character. -/
def hexVal (c : Char) : Option Nat :=
  if '0' ≤ c ∧ c ≤ '9' then some (c.toNat - 48)
  else if 'a' ≤ c ∧ c ≤ 'f' then some (c.toNat - 87)
  else if 'A' ≤ c ∧ c ≤ 'F' then some (c.toNat - 55)
  else none

/-- Parse one `%XX` escape at the head of the character list, returning the
byte value and the remaining characters. -/
def pctByte : List Char → Option (Nat × List Char)
  | '%' :: h :: l :: rest =>
    match hexVal h, hexVal l with
    | some hv, some lv => some (hv * 16 + lv, rest)
    | _, _ => none
  | _ => none

/-- Parse one `%XX` escape that must be a UTF-8 continuation byte. -/
def contByte (l : List Char) : Option (Nat × List Char) :=
  match pctByte l with
  | some (b, r) => if 0x80 ≤ b ∧ b ≤ 0xBF then some (b, r) else none
  | none => none

/-- Decode one maximal percent-escaped UTF-8 sequence at the head of the
list into a single character. -/
def pctDecode (l : List Char) : Option (Char × List Char) :=
  match pctByte l with
  | none => none
  | some (b, r) =>
    if b < 0x80 then some (Char.ofNat b, r)
    else if 0xC2 ≤ b ∧ b ≤ 0xDF then
      match contByte r with
      | some (b1, r1) => some (Char.ofNat ((b - 0xC0) * 64 + (b1 - 0x80)), r1)
      | none => none
    else if 0xE0 ≤ b ∧ b ≤ 0xEF then
      match contByte r with
      | some (b1, r1) =>
        match contByte r1 with
        | some (b2, r2) =>
          let cp := (b - 0xE0) * 4096 + (b1 - 0x80) * 64 + (b2 - 0x80)
          if 0x800 ≤ cp ∧ ¬ (0xD800 ≤ cp ∧ cp ≤ 0xDFFF) then
            some (Char.ofNat cp, r2)
          else none
        | none => none
      | none => none
    else if 0xF0 ≤ b ∧ b ≤ 0xF4 then
      match contByte r with
      | some (b1, r1) =>
        match contByte r1 with
        | some (b2, r2) =>
          match contByte r2 with
          | some (b3, r3) =>
            let cp := (b - 0xF0) * 262144 + (b1 - 0x80) * 4096 +
              (b2 - 0x80) * 64 + (b3 - 0x80)
            if 0x10000 ≤ cp ∧ cp ≤ 0x10FFFF then some (Char.ofNat cp, r3)
            else none
          | none => none
        | none => none
      | none => none
    else none

/-- Fuel-indexed decoding loop; each step consumes at least one character,
so fuel equal to the length of the input suffices. -/
def uriDecodeAux : Nat → List Char → Option (List Char)
  | _, [] => some []
  | 0, _ :: _ => none
  | fuel + 1, c :: rest =>
    if c = '%' then
      match pctDecode (c :: rest) with
      | none => none
      | some (ch, rest2) => (uriDecodeAux fuel rest2).map (ch :: ·)
    else (uriDecodeAux fuel rest).map (c :: ·)

/-- Model of the JS builtin `decodeURIComponent`; `none` models a thrown
`URIError`. -/
def decodeURIComponent (s : String) : Option String :=
  (uriDecodeAux s.data.length s.data).map String.mk

/-! ### POSIX path model -/

/-- Split a character list at every occurrence of `c` (the separators are
dropped; empty pieces are kept, as in `String.splitOn`). -/
def splitOnChar (c : Char) : List Char → List (List Char)
  | [] => [[]]
  | x :: xs =>
    match splitOnChar c xs with
    | [] => [[]]
    | h :: t => if x = c then [] :: h :: t else (x :: h) :: t

/-- Split a path string into raw segments at `/`. -/
def splitSegs (s : String) : List String :=
  (splitOnChar '/' s.data).map String.mk

/-- Resolution loop of `path.normalize` for a relative path, with the
already-resolved segments kept in reverse order in `stack`: `.` and empty
segments vanish, `..` pops a resolved segment and is kept when there is
nothing left to pop. -/
def normRelRev (stack : List String) : List String → List String
  | [] => stack
  | s :: rest =>
    if s = "" ∨ s = "." then normRelRev stack rest
    else if s = ".." then
      match stack with
      | [] => normRelRev [".."] rest
      | t :: ts => if t = ".." then normRelRev (s :: t :: ts) rest
                   else normRelRev ts rest
    else normRelRev (s :: stack) rest

/-- Model of `path.normalize` on a relative path, at the segment level. -/
def normRel (segs : List String) : List String := (normRelRev [] segs).reverse

/-- Resolution loop of `path.normalize` for an absolute path: like the
relative case, except that `..` at the root is dropped. -/
def normAbsRev (stack : List String) : List String → List String
  | [] => stack
  | s :: rest =>
    if s = "" ∨ s = "." then normAbsRev stack rest
    else if s = ".." then
      match stack with
      | [] => normAbsRev [] rest
      | _ :: ts => normAbsRev ts rest
    else normAbsRev (s :: stack) rest

/-- Model of `path.normalize` on an absolute path, at the segment level. -/
def normAbs (segs : List String) : List String :=
  (normAbsRev [] segs).reverse

/-- Model of `path.join(base, rel)` for an absolute `base`: concatenate and
normalize (Node's `join` normalizes the joined string). -/
def joinAbs (base rel : List String) : List String := normAbs (base ++ rel)

/-- The string-prefix containment test of `serveFile`
(`filePath.indexOf(APP_ROOT + path.sep) === 0`): at the segment level,
`root` must be a proper prefix of `p`. -/
def insideRoot (root p : List String) : Bool :=
  root.isPrefixOf p && root.length < p.length

/-! ### File server (`serveFile`) -/

/-- Result of a successful `fs.stat`: the fields the server uses. -/
structure FileStat where
  ino : Nat
  size : Nat
  mtimeMs : Nat
  deriving DecidableEq, Repr

/-- The filesystem oracle: `stat` returns `none` when `fs.stat` fails. -/
structure FsModel where
  stat : List String → Option FileStat

/-- A filesystem access performed while answering a request. -/
inductive Access where
  | statAcc (p : List String)
  | readAcc (p : List String)
  deriving DecidableEq, Repr

/-- Body of an HTTP response: nothing, a literal string, or the streamed
contents of a file. -/
inductive Body where
  | empty
  | text (s : String)
  | file (p : List String)
  deriving DecidableEq, Repr

/-- The parts of an HTTP response the server produces. -/
structure HttpResponse where
  status : Nat
  contentType : Option String
  etagHeader : Option String
  body : Body
  deriving DecidableEq, Repr

/-- The character of a decimal digit. -/
def digitChar (n : Nat) : Char :=
  match n with
  | 0 => '0' | 1 => '1' | 2 => '2' | 3 => '3' | 4 => '4'
  | 5 => '5' | 6 => '6' | 7 => '7' | 8 => '8' | 9 => '9'
  | _ => '0'

/-- Fuel-indexed most-significant-first decimal digits; fuel `n + 1`
always suffices. -/
def natDigits : Nat → Nat → List Char
  | 0, _ => []
  | fuel + 1, n =>
    if n < 10 then [digitChar n]
    else natDigits fuel (n / 10) ++ [digitChar (n % 10)]

/-- Decimal rendering of a JS number holding a nonnegative integer
(template-literal interpolation of `stat.ino` etc.). -/
def natToString (n : Nat) : String := String.mk (natDigits (n + 1) n)

/-- Numeric value of a decimal digit character. -/
def digitVal (c : Char) : Nat := c.toNat - 48

/-- Value of a most-significant-first digit string. -/
def valDigits (l : List Char) : Nat :=
  l.foldl (fun a c => a * 10 + digitVal c) 0

/-- The weak validator computed by `serveFile` (line 413):
`` W/"${[stat.ino, stat.size, stat.mtime.getTime()].join('-')}" ``. -/
def etagOf (st : FileStat) : String :=
  "W/\"" ++ natToString st.ino ++ "-" ++ natToString st.size ++ "-" ++
    natToString st.mtimeMs ++ "\""

/-- The `textMimeType` table (lines 364-370). -/
def textMimeType (ext : String) : Option String :=
  if ext = ".html" then some "text/html"
  else if ext = ".js" then some "text/javascript"
  else if ext = ".json" then some "application/json"
  else if ext = ".css" then some "text/css"
  else if ext = ".svg" then some "image/svg+xml"
  else none

/-- The `mapExtToMediaMimes` table (lines 372-384). -/
def mediaMimeTable (ext : String) : Option String :=
  if ext = ".bmp" then some "image/bmp"
  else if ext = ".gif" then some "image/gif"
  else if ext = ".ico" then some "image/x-icon"
  else if ext = ".jpe" then some "image/jpg"
  else if ext = ".jpeg" then some "image/jpg"
  else if ext = ".jpg" then some "image/jpg"
  else if ext = ".png" then some "image/png"
  else if ext = ".tga" then some "image/x-tga"
  else if ext = ".tif" then some "image/tiff"
  else if ext = ".tiff" then some "image/tiff"
  else if ext = ".woff" then some "application/font-woff"
  else none

/-- Model of `path.extname` on one basename: the suffix starting at the last
dot, where a dot in position 0 does not count. -/
def extnameStr (s : String) : String :=
  let cs := s.data
  let i := (List.range cs.length).filter (fun j => cs.getD j ' ' = '.')
  match i.getLast? with
  | none => ""
  | some j => if j = 0 then "" else String.mk (cs.drop j)

/-- `path.extname` of a path given as segments (extension of the basename). -/
def extnameOf (p : List String) : String :=
  match p.getLast? with
  | none => ""
  | some s => extnameStr s

/-- `getMediaMime` (lines 389-393): media mime of the lowercased extension. -/
def getMediaMime (p : List String) : Option String :=
  mediaMimeTable (extnameOf p).toLower

/-- Content type chosen on line 420:
`textMimeType[path.extname(filePath)] || getMediaMime(filePath) || 'text/plain'`. -/
def contentTypeFor (p : List String) : String :=
  ((textMimeType (extnameOf p)).orElse fun _ => getMediaMime p).getD "text/plain"

/-- Model of `serveFile` (lines 400-432).  `appRoot` is the segment list of
`APP_ROOT`; `extraCT` models the caller-supplied `responseHeaders`
Content-Type, which line 420 unconditionally overwrites, so it does not
influence the result.  The second component lists the filesystem accesses
performed. -/
def serveFile (appRoot : List String) (fs : FsModel) (ifNoneMatch : Option String)
    (filePath0 : List String) (_extraCT : Option String) :
    HttpResponse × List Access :=
  let filePath := normAbs filePath0
  if insideRoot appRoot filePath then
    match fs.stat filePath with
    | none =>
      (⟨404, some "text/plain", none, Body.text "Not found"⟩, [Access.statAcc filePath])
    | some st =>
      let etag := etagOf st
      if ifNoneMatch = some etag then
        (⟨304, none, none, Body.empty⟩, [Access.statAcc filePath])
      else
        (⟨200, some (contentTypeFor filePath), some etag, Body.file filePath⟩,
          [Access.statAcc filePath, Access.readAcc filePath])
  else
    (⟨400, some "text/plain", none, Body.text "Bad request."⟩, [])

/-- Model of `handleStatic` (lines 196-202).  `suffix` is the request
pathname with the `/static/` prefix stripped; `none` models the
`decodeURIComponent` exception escaping the handler. -/
def handleStatic (appRoot : List String) (fs : FsModel) (ifNoneMatch : Option String)
    (suffix : String) : Option (HttpResponse × List Access) :=
  (decodeURIComponent suffix).map fun d =>
    serveFile appRoot fs ifNoneMatch (joinAbs appRoot (normRel (splitSegs d))) none

/-- `EXTENSIONS_ROOT = path.join(APP_ROOT, 'extensions')` (line 21). -/
def extensionsRootOf (appRoot : List String) : List String :=
  appRoot ++ ["extensions"]

/-- Model of `handleStaticExtension` (lines 209-217); `suffix` is the
pathname with the `/static-extension/` prefix stripped. -/
def handleStaticExtension (appRoot : List String) (fs : FsModel)
    (ifNoneMatch : Option String) (suffix : String) :
    Option (HttpResponse × List Access) :=
  (decodeURIComponent suffix).map fun d =>
    serveFile appRoot fs ifNoneMatch
      (joinAbs (extensionsRootOf appRoot) (normRel (splitSegs d))) none

/-- C1 (claim): for every file path requested under `/static/`, if the
normalized path `APP_ROOT` joined with it is not prefixed by `APP_ROOT`
plus the path separator, `serveFile` answers HTTP 400 `Bad request.` and
performs no filesystem stat or read. -/
theorem handleStatic_out_of_root_400_no_access
    (appRoot : List String) (fs : FsModel) (ifNoneMatch : Option String)
    (suffix d : String)
    (hdec : decodeURIComponent suffix = some d)
    (hout : insideRoot appRoot (normAbs (joinAbs appRoot (normRel (splitSegs d)))) = false) :
    handleStatic appRoot fs ifNoneMatch suffix =
      some (⟨400, some "text/plain", none, Body.text "Bad request."⟩, []) := by
  simp only [handleStatic, hdec, Option.map_some', serveFile, hout]
  simp

/-- Witness for C1 at `suffix = "../outside"` under root `/vscode`. -/
theorem handleStatic_out_of_root_400_no_access_witness :
    decodeURIComponent "../outside" = some "../outside" ∧
    insideRoot ["vscode"]
      (normAbs (joinAbs ["vscode"] (normRel (splitSegs "../outside")))) = false ∧
    handleStatic ["vscode"] ⟨fun _ => some ⟨1, 2, 3⟩⟩ none "../outside" =
      some (⟨400, some "text/plain", none, Body.text "Bad request."⟩, []) :=
  ⟨by decide, by decide,
    handleStatic_out_of_root_400_no_access ["vscode"] ⟨fun _ => some ⟨1, 2, 3⟩⟩
      none "../outside" "../outside" (by decide) (by decide)⟩

/-! ### Parsed query strings

`url.parse(req.url, true).query` maps each key to its first-occurrence
position, with all (once-decoded) values collected in a list.  We model the
object as an association list in encounter order.
-/

/-- A parsed query object. -/
abbrev Query := List (String × List String)

/-- Model of `getFirstQueryValue` (lines 320-323): the single value, or the
first element when the key was repeated. -/
def getFirstQueryValue (q : Query) (key : String) : Option String :=
  (q.lookup key).bind List.head?

/-- A decimal digit character. -/
def isDigitChar (c : Char) : Bool := '0' ≤ c && c ≤ '9'

/-- Whether a string is an ECMAScript array-index property key: the
canonical decimal representation (no leading zero except `"0"`) of an
integer below `2^32 - 1`. -/
def isArrayIndex (s : String) : Bool :=
  match s.data with
  | [] => false
  | c :: rest =>
    (c :: rest).all isDigitChar && (c != '0' || rest.isEmpty) &&
      valDigits (c :: rest) < 4294967295

/-- Insertion by ascending numeric value of an array-index key. -/
def insertByVal (x : String) : List String → List String
  | [] => [x]
  | y :: ys =>
    if valDigits x.data ≤ valDigits y.data then x :: y :: ys
    else y :: insertByVal x ys

/-- Insertion sort by ascending numeric value. -/
def sortByVal : List String → List String
  | [] => []
  | x :: xs => insertByVal x (sortByVal xs)

/-- ECMAScript own-property enumeration order of a `for (const key in o)`
loop over an ordinary object with the given keys in creation order:
array-index keys first, in ascending numeric order, then the remaining
keys in creation order. -/
def jsEnumKeys (keys : List String) : List String :=
  sortByVal (keys.filter isArrayIndex) ++ keys.filter (fun k => !isArrayIndex k)

/-- Model of `getFirstQueryValues` (lines 330-345): for each key of the
parsed query object, enumerated in the `for`-`in` order of line 333
(array-index keys ascending first, then the rest in encounter order), the
first value of every key not in `ignoreKeys`. -/
def getFirstQueryValues (q : Query) (ignoreKeys : List String) :
    List (String × String) :=
  (jsEnumKeys (q.map Prod.fst)).filterMap fun k =>
    if ignoreKeys.contains k then none
    else (getFirstQueryValue q k).map fun v => (k, v)

/-! ### Callback relay (`mapCallbackUriToRequestId`, lines 130, 259-313) -/

/-- The callback store, a JS `Map` from request id to the serialized
redirect descriptor, in insertion order. -/
abbrev CBMap := List (String × String)

/-- JS `Map.prototype.get`. -/
def mapGet (m : CBMap) (k : String) : Option String :=
  match m with
  | [] => none
  | (k2, v) :: rest => if k2 = k then some v else mapGet rest k

/-- JS `Map.prototype.set`: update in place, or append a new entry. -/
def mapSet (m : CBMap) (k v : String) : CBMap :=
  match m with
  | [] => [(k, v)]
  | (k2, w) :: rest =>
    if k2 = k then (k, v) :: rest else (k2, w) :: mapSet rest k v

/-- JS `Map.prototype.delete`. -/
def mapDelete (m : CBMap) (k : String) : CBMap :=
  m.filter fun p => p.1 ≠ k

/-- The redirect descriptor assembled on line 289 before serialization. -/
structure CallbackDesc where
  scheme : String
  authority : Option String
  path : Option String
  query : Option String
  fragment : Option String
  deriving DecidableEq, Repr

/-- Lowercase hex digit, as produced by `JSON.stringify` escapes. -/
def hexDigitChar (n : Nat) : Char :=
  Char.ofNat (if n < 10 then 48 + n else 87 + n)

/-- `JSON.stringify` escaping of a single character. -/
def jsonEscapeChar (c : Char) : String :=
  if c = '"' then "\\\""
  else if c = '\\' then "\\\\"
  else if c.toNat = 8 then "\\b"
  else if c.toNat = 9 then "\\t"
  else if c.toNat = 10 then "\\n"
  else if c.toNat = 12 then "\\f"
  else if c.toNat = 13 then "\\r"
  else if c.toNat < 32 then
    "\\u00" ++ String.mk [hexDigitChar (c.toNat / 16), hexDigitChar (c.toNat % 16)]
  else String.mk [c]

/-- `JSON.stringify` of a string value. -/
def jsonStr (s : String) : String :=
  "\"" ++ String.join (s.data.map jsonEscapeChar) ++ "\""

/-- An optional object member: omitted entirely when the value is
`undefined`, as `JSON.stringify` does. -/
def jsonOptMember (name : String) (v : Option String) : String :=
  match v with
  | none => ""
  | some s => ",\"" ++ name ++ "\":" ++ jsonStr s

/-- `JSON.stringify({ scheme, authority, path, query, fragment })` of the
descriptor stored on line 289 (member order as in the object literal;
`undefined` members omitted). -/
def descriptorJSON (d : CallbackDesc) : String :=
  "\x7b\"scheme\":" ++ jsonStr d.scheme ++
    jsonOptMember "authority" d.authority ++
    jsonOptMember "path" d.path ++
    jsonOptMember "query" d.query ++
    jsonOptMember "fragment" d.fragment ++ "\x7d"

/-- The `wellKnownKeys` list (line 260). -/
def wellKnownKeys : List String :=
  ["vscode-requestId", "vscode-scheme", "vscode-authority", "vscode-path",
    "vscode-query", "vscode-fragment"]

/-- Lines 261-268: each well-known value is re-decoded when truthy;
`some none`/`some (some v)` are the JS `undefined`/string outcomes, outer
`none` models a thrown `URIError`. -/
def decodeQueryParam (raw : Option String) : Option (Option String) :=
  match raw with
  | none => some none
  | some v => if v = "" then some (some v) else (decodeURIComponent v).map some

/-- One iteration of the `forEach` on lines 278-285. -/
def mergeStep (acc : Option String × Nat) (kv : String × String) :
    Option String × Nat :=
  let q0 := acc.1.getD ""
  (some (q0 ++ (if acc.2 = 0 then "" else "&") ++ kv.1 ++ "=" ++ kv.2), acc.2 + 1)

/-- Lines 276-285: merge the additional query values over `vscodeQuery`. -/
def mergeExtras (vscodeQuery : Option String) (extras : List (String × String)) :
    Option String :=
  (extras.foldl mergeStep (vscodeQuery, 0)).1

/-- Lines 259-289 up to the `Map.set`: decode the six well-known values (in
order, any `URIError` escaping, which gives outer `none`), answer
`some none` (a 400) when the decoded request id is falsy, otherwise produce
the id and the descriptor that will be stored. -/
def callbackRegistration (q : Query) : Option (Option (String × CallbackDesc)) :=
  match decodeQueryParam (getFirstQueryValue q "vscode-requestId"),
      decodeQueryParam (getFirstQueryValue q "vscode-scheme"),
      decodeQueryParam (getFirstQueryValue q "vscode-authority"),
      decodeQueryParam (getFirstQueryValue q "vscode-path"),
      decodeQueryParam (getFirstQueryValue q "vscode-query"),
      decodeQueryParam (getFirstQueryValue q "vscode-fragment") with
  | some requestId, some vscodeScheme, some vscodeAuthority, some vscodePath,
      some vscodeQuery, some vscodeFragment =>
    if jsTruthy requestId then
      some (some (requestId.getD "",
        ⟨if jsTruthy vscodeScheme then vscodeScheme.getD "" else "code-oss",
          vscodeAuthority, vscodePath,
          mergeExtras vscodeQuery (getFirstQueryValues q wellKnownKeys),
          vscodeFragment⟩))
    else some none
  | _, _, _, _, _, _ => none

/-- Model of `handleCallback` (lines 259-291): `none` when the `URIError`
escapes; otherwise the response, the filesystem accesses, and the updated
callback store. -/
def handleCallback (appRoot : List String) (fs : FsModel) (ifNoneMatch : Option String)
    (q : Query) (m : CBMap) : Option (HttpResponse × List Access × CBMap) :=
  (callbackRegistration q).map fun reg =>
    match reg with
    | none => (⟨400, some "text/plain", none, Body.text "Bad request."⟩, [], m)
    | some (rid, desc) =>
      let r := serveFile appRoot fs ifNoneMatch
        (joinAbs appRoot ["resources", "serverless", "callback.html"])
        (some "text/html")
      (r.1, r.2, mapSet m rid (descriptorJSON desc))

/-- Model of `handleFetchCallback` (lines 299-313). -/
def handleFetchCallback (q : Query) (m : CBMap) : HttpResponse × CBMap :=
  let requestId := getFirstQueryValue q "vscode-requestId"
  if jsTruthy requestId then
    let rid := requestId.getD ""
    let known := mapGet m rid
    let m2 := if known.isSome then mapDelete m rid else m
    (⟨200, some "text/json", none,
      match known with
      | some s => Body.text s
      | none => Body.empty⟩, m2)
  else
    (⟨400, some "text/plain", none, Body.text "Bad request."⟩, m)

/-! Store lemmas. -/

theorem mapGet_mapSet_self (m : CBMap) (k v : String) :
    mapGet (mapSet m k v) k = some v := by
  induction m with
  | nil => simp [mapSet, mapGet]
  | cons hd tl ih =>
    obtain ⟨k2, w⟩ := hd
    by_cases h : k2 = k <;> simp [mapSet, mapGet, h, ih]

theorem mapGet_mapDelete_self (m : CBMap) (k : String) :
    mapGet (mapDelete m k) k = none := by
  induction m with
  | nil => simp [mapDelete, mapGet]
  | cons hd tl ih =>
    obtain ⟨k2, w⟩ := hd
    by_cases h : k2 = k <;>
      simp_all [mapDelete, mapGet, List.filter]

/-- A successful registration determines the stored id: it is the re-decoded
request id value, which is nonempty. -/
theorem callbackRegistration_requestId (q : Query) (rid : String)
    (d : CallbackDesc)
    (hreg : callbackRegistration q = some (some (rid, d))) :
    decodeQueryParam (getFirstQueryValue q "vscode-requestId") =
      some (some rid) ∧ rid ≠ "" := by
  unfold callbackRegistration at hreg
  split at hreg
  case _ requestId s a p qv f h1 h2 h3 h4 h5 h6 =>
    split at hreg
    case isTrue htr =>
      simp only [Option.some.injEq, Prod.mk.injEq] at hreg
      obtain ⟨hrid, _⟩ := hreg
      match requestId, htr with
      | some s0, htr =>
        have hs0 : s0 ≠ "" := by
          simpa [jsTruthy] using htr
        simp only [Option.getD_some] at hrid
        exact ⟨by rw [h1, hrid], hrid ▸ hs0⟩
    case isFalse => exact absurd hreg (by simp)
  case _ => exact absurd hreg (by simp)

/-- C2 (corrected): a `/callback` registration with request id `R` followed
by a `/fetch-callback` retrieval with the same id returns exactly the
stored descriptor and deletes the entry, so a second retrieval — and a
retrieval of a never-registered id — answers HTTP 200 with an empty body;
this holds for every id that URI-decodes to itself (registration stores
under the re-decoded id, retrieval looks up the raw id). -/
theorem register_fetch_consume_once
    (appRoot : List String) (fs : FsModel) (inm : Option String)
    (q : Query) (m : CBMap) (v rid : String) (d : CallbackDesc)
    (resp : HttpResponse) (acc : List Access) (m2 : CBMap)
    (v2 : String) (m0 : CBMap)
    (hv : v ≠ "")
    (hraw : getFirstQueryValue q "vscode-requestId" = some v)
    (hfix : decodeURIComponent v = some v)
    (hreg : callbackRegistration q = some (some (rid, d)))
    (hcb : handleCallback appRoot fs inm q m = some (resp, acc, m2))
    (hv2 : v2 ≠ "") (hm0 : mapGet m0 v2 = none) :
    handleFetchCallback [("vscode-requestId", [v])] m2 =
      (⟨200, some "text/json", none, Body.text (descriptorJSON d)⟩, mapDelete m2 v)
    ∧ handleFetchCallback [("vscode-requestId", [v])] (mapDelete m2 v) =
      (⟨200, some "text/json", none, Body.empty⟩, mapDelete m2 v)
    ∧ handleFetchCallback [("vscode-requestId", [v2])] m0 =
      (⟨200, some "text/json", none, Body.empty⟩, m0) := by
  have hridv : rid = v := by
    obtain ⟨hdec, -⟩ := callbackRegistration_requestId q rid d hreg
    rw [hraw] at hdec
    simp only [decodeQueryParam] at hdec
    rw [if_neg hv, hfix] at hdec
    simp only [Option.map_some', Option.some.injEq] at hdec
    exact hdec.symm
  rw [hridv] at hreg
  have hm2 : m2 = mapSet m v (descriptorJSON d) := by
    rw [handleCallback, hreg] at hcb
    simp only [Option.map_some'] at hcb
    exact congrArg (fun t => t.2.2) (Option.some.inj hcb).symm
  subst hm2
  refine ⟨?_, ?_, ?_⟩
  · simp [handleFetchCallback, getFirstQueryValue, jsTruthy, hv,
      mapGet_mapSet_self]
  · simp [handleFetchCallback, getFirstQueryValue, jsTruthy, hv,
      mapGet_mapDelete_self]
  · simp [handleFetchCallback, getFirstQueryValue, jsTruthy, hv2, hm0]

/-- Witness for C2: register id `r1`, fetch it twice, and fetch a
never-registered id. -/
theorem register_fetch_consume_once_witness :
    handleFetchCallback [("vscode-requestId", ["r1"])]
        (mapSet [] "r1" (descriptorJSON ⟨"code-oss", none, none, none, none⟩)) =
      (⟨200, some "text/json", none,
          Body.text (descriptorJSON ⟨"code-oss", none, none, none, none⟩)⟩,
        mapDelete (mapSet [] "r1"
          (descriptorJSON ⟨"code-oss", none, none, none, none⟩)) "r1")
    ∧ handleFetchCallback [("vscode-requestId", ["r1"])]
        (mapDelete (mapSet [] "r1"
          (descriptorJSON ⟨"code-oss", none, none, none, none⟩)) "r1") =
      (⟨200, some "text/json", none, Body.empty⟩,
        mapDelete (mapSet [] "r1"
          (descriptorJSON ⟨"code-oss", none, none, none, none⟩)) "r1")
    ∧ handleFetchCallback [("vscode-requestId", ["never"])] [] =
      (⟨200, some "text/json", none, Body.empty⟩, []) :=
  register_fetch_consume_once ["vscode"] ⟨fun _ => none⟩ none
    [("vscode-requestId", ["r1"])] [] "r1" "r1" ⟨"code-oss", none, none, none, none⟩
    ⟨404, some "text/plain", none, Body.text "Not found"⟩
    [Access.statAcc ["vscode", "resources", "serverless", "callback.html"]]
    (mapSet [] "r1" (descriptorJSON ⟨"code-oss", none, none, none, none⟩))
    "never" []
    (by decide) (by decide) (by decide) (by decide) (by decide) (by decide) (by decide)

/-- C2 counterexample to the claim as stated: the literal request id `%41`
is registered (the store keys it under its re-decoded form `A`), yet an
immediate `/fetch-callback` retrieval with the same id `%41` answers 200
with an *empty* body instead of the stored descriptor. -/
theorem callback_fetch_raw_id_counterexample :
    handleCallback ["vscode"] ⟨fun _ => none⟩ none
        [("vscode-requestId", ["%41"])] [] =
      some (⟨404, some "text/plain", none, Body.text "Not found"⟩,
        [Access.statAcc ["vscode", "resources", "serverless", "callback.html"]],
        [("A", descriptorJSON ⟨"code-oss", none, none, none, none⟩)])
    ∧ handleFetchCallback [("vscode-requestId", ["%41"])]
        [("A", descriptorJSON ⟨"code-oss", none, none, none, none⟩)] =
      (⟨200, some "text/json", none, Body.empty⟩,
        [("A", descriptorJSON ⟨"code-oss", none, none, none, none⟩)]) := by
  decide

/-! ### C3: the validation token -/

theorem digitVal_digitChar (n : Nat) (h : n < 10) :
    digitVal (digitChar n) = n := by
  interval_cases n <;> decide

theorem valDigits_append_singleton (xs : List Char) (c : Char) :
    valDigits (xs ++ [c]) = valDigits xs * 10 + digitVal c := by
  simp [valDigits, List.foldl_append]

theorem valDigits_natDigits : ∀ fuel n, n < fuel →
    valDigits (natDigits fuel n) = n := by
  intro fuel
  induction fuel with
  | zero => intro n h; omega
  | succ f ih =>
    intro n h
    by_cases h10 : n < 10
    · have := digitVal_digitChar n h10
      simp [natDigits, h10, valDigits]
      omega
    · have hdiv : n / 10 < f := by
        have : n / 10 < n := Nat.div_lt_self (by omega) (by omega)
        omega
      have hmod := digitVal_digitChar (n % 10) (Nat.mod_lt _ (by omega))
      simp only [natDigits, if_neg h10, valDigits_append_singleton, ih _ hdiv,
        hmod]
      omega

theorem natToString_injective (a b : Nat) (h : natToString a = natToString b) :
    a = b := by
  have hd : natDigits (a + 1) a = natDigits (b + 1) b := congrArg String.data h
  have ha := valDigits_natDigits (a + 1) a (by omega)
  have hb := valDigits_natDigits (b + 1) b (by omega)
  rw [hd, hb] at ha
  exact ha.symm

/-- C3 (claim): the validation token is a deterministic function of the
inode, size and modification time, and for fixed inode and size any change
of the modification time changes the token. -/
theorem etag_deterministic_and_mtime_sensitive (a b : FileStat)
    (hino : a.ino = b.ino) (hsize : a.size = b.size) :
    (a.mtimeMs = b.mtimeMs → etagOf a = etagOf b)
    ∧ (a.mtimeMs ≠ b.mtimeMs → etagOf a ≠ etagOf b) := by
  constructor
  · intro hm
    simp [etagOf, hino, hsize, hm]
  · intro hm heq
    apply hm
    rw [etagOf, etagOf, hino, hsize] at heq
    have h1 := congrArg String.data heq
    simp only [String.data_append] at h1
    have h2 := List.append_cancel_right h1
    have h3 := List.append_cancel_left h2
    exact natToString_injective _ _ (congrArg String.mk h3)

/-- Witness for C3 at the stat triples `(1, 2, 3)` and `(1, 2, 4)`. -/
theorem etag_deterministic_and_mtime_sensitive_witness :
    etagOf ⟨1, 2, 3⟩ = etagOf ⟨1, 2, 3⟩ ∧ etagOf ⟨1, 2, 3⟩ ≠ etagOf ⟨1, 2, 4⟩ :=
  ⟨(etag_deterministic_and_mtime_sensitive ⟨1, 2, 3⟩ ⟨1, 2, 3⟩ rfl rfl).1 rfl,
    (etag_deterministic_and_mtime_sensitive ⟨1, 2, 3⟩ ⟨1, 2, 4⟩ rfl rfl).2
      (by decide)⟩

/-- C4 (claim): whenever the request's `if-none-match` header equals the
computed validation token of the served file, `serveFile` answers HTTP 304
with an empty body and performs no read of the file contents. -/
theorem serveFile_if_none_match_304_empty
    (appRoot : List String) (fs : FsModel) (fp : List String)
    (extraCT : Option String) (st : FileStat)
    (hin : insideRoot appRoot (normAbs fp) = true)
    (hstat : fs.stat (normAbs fp) = some st) :
    serveFile appRoot fs (some (etagOf st)) fp extraCT =
      (⟨304, none, none, Body.empty⟩, [Access.statAcc (normAbs fp)]) := by
  simp [serveFile, hin, hstat]

/-- Witness for C4: the file `/vscode/a.js` with stat `(1, 10, 5)` and a
matching conditional header. -/
theorem serveFile_if_none_match_304_empty_witness :
    insideRoot ["vscode"] (normAbs ["vscode", "a.js"]) = true ∧
    FsModel.stat ⟨fun p => if p = ["vscode", "a.js"] then some ⟨1, 10, 5⟩ else none⟩
      (normAbs ["vscode", "a.js"]) = some ⟨1, 10, 5⟩ ∧
    serveFile ["vscode"]
      ⟨fun p => if p = ["vscode", "a.js"] then some ⟨1, 10, 5⟩ else none⟩
      (some (etagOf ⟨1, 10, 5⟩)) ["vscode", "a.js"] none =
      (⟨304, none, none, Body.empty⟩, [Access.statAcc (normAbs ["vscode", "a.js"])]) :=
  ⟨by decide, by decide,
    serveFile_if_none_match_304_empty ["vscode"]
      ⟨fun p => if p = ["vscode", "a.js"] then some ⟨1, 10, 5⟩ else none⟩
      ["vscode", "a.js"] none ⟨1, 10, 5⟩ (by decide) (by decide)⟩

/-- C10 (claim): a `/static-extension/<rel>` request whose normalized
extensions-root-joined path escapes the extensions root while remaining
strictly inside the application root is *not* rejected with 400: the
containment check of `serveFile` only compares against `APP_ROOT`, so the
request proceeds to a stat and is answered 404/304/200 by existence. -/
theorem staticExtension_served_within_app_root
    (appRoot : List String) (fs : FsModel) (inm : Option String)
    (suffix d : String)
    (hdec : decodeURIComponent suffix = some d)
    (hesc : insideRoot (extensionsRootOf appRoot)
      (normAbs (joinAbs (extensionsRootOf appRoot) (normRel (splitSegs d)))) = false)
    (hin : insideRoot appRoot
      (normAbs (joinAbs (extensionsRootOf appRoot) (normRel (splitSegs d)))) = true) :
    handleStaticExtension appRoot fs inm suffix =
      some (serveFile appRoot fs inm
        (joinAbs (extensionsRootOf appRoot) (normRel (splitSegs d))) none)
    ∧ (serveFile appRoot fs inm
        (joinAbs (extensionsRootOf appRoot) (normRel (splitSegs d))) none).1.status ≠ 400
    ∧ Access.statAcc (normAbs (joinAbs (extensionsRootOf appRoot) (normRel (splitSegs d))))
        ∈ (serveFile appRoot fs inm
            (joinAbs (extensionsRootOf appRoot) (normRel (splitSegs d))) none).2
    ∧ (serveFile appRoot fs inm
        (joinAbs (extensionsRootOf appRoot) (normRel (splitSegs d))) none).1.status =
      (match fs.stat (normAbs (joinAbs (extensionsRootOf appRoot) (normRel (splitSegs d)))) with
        | none => 404
        | some st => if inm = some (etagOf st) then 304 else 200) := by
  refine ⟨by simp [handleStaticExtension, hdec], ?_, ?_, ?_⟩ <;>
    · simp only [serveFile, hin, if_true]
      cases hstat : fs.stat
          (normAbs (joinAbs (extensionsRootOf appRoot) (normRel (splitSegs d)))) with
      | none => simp
      | some st =>
        by_cases hmatch : inm = some (etagOf st) <;> simp [hmatch]

/-- Witness for C10: request suffix `../resources/x.png` under root
`/vscode`, resolving to `/vscode/resources/x.png`, which exists. -/
theorem staticExtension_served_within_app_root_witness :
    decodeURIComponent "../resources/x.png" = some "../resources/x.png" ∧
    insideRoot (extensionsRootOf ["vscode"])
      (normAbs (joinAbs (extensionsRootOf ["vscode"])
        (normRel (splitSegs "../resources/x.png")))) = false ∧
    insideRoot ["vscode"]
      (normAbs (joinAbs (extensionsRootOf ["vscode"])
        (normRel (splitSegs "../resources/x.png")))) = true ∧
    (handleStaticExtension ["vscode"]
        ⟨fun p => if p = ["vscode", "resources", "x.png"] then some ⟨1, 2, 3⟩ else none⟩
        none "../resources/x.png" =
      some (serveFile ["vscode"]
        ⟨fun p => if p = ["vscode", "resources", "x.png"] then some ⟨1, 2, 3⟩ else none⟩
        none (joinAbs (extensionsRootOf ["vscode"])
          (normRel (splitSegs "../resources/x.png"))) none)
    ∧ (serveFile ["vscode"]
        ⟨fun p => if p = ["vscode", "resources", "x.png"] then some ⟨1, 2, 3⟩ else none⟩
        none (joinAbs (extensionsRootOf ["vscode"])
          (normRel (splitSegs "../resources/x.png"))) none).1.status ≠ 400
    ∧ Access.statAcc (normAbs (joinAbs (extensionsRootOf ["vscode"])
          (normRel (splitSegs "../resources/x.png"))))
        ∈ (serveFile ["vscode"]
            ⟨fun p => if p = ["vscode", "resources", "x.png"] then some ⟨1, 2, 3⟩ else none⟩
            none (joinAbs (extensionsRootOf ["vscode"])
              (normRel (splitSegs "../resources/x.png"))) none).2
    ∧ (serveFile ["vscode"]
        ⟨fun p => if p = ["vscode", "resources", "x.png"] then some ⟨1, 2, 3⟩ else none⟩
        none (joinAbs (extensionsRootOf ["vscode"])
          (normRel (splitSegs "../resources/x.png"))) none).1.status =
      (match FsModel.stat
          ⟨fun p => if p = ["vscode", "resources", "x.png"] then some ⟨1, 2, 3⟩ else none⟩
          (normAbs (joinAbs (extensionsRootOf ["vscode"])
            (normRel (splitSegs "../resources/x.png")))) with
        | none => 404
        | some st => if (none : Option String) = some (etagOf st) then 304 else 200)) :=
  ⟨by decide, by decide, by decide,
    staticExtension_served_within_app_root ["vscode"]
      ⟨fun p => if p = ["vscode", "resources", "x.png"] then some ⟨1, 2, 3⟩ else none⟩
      none "../resources/x.png" "../resources/x.png"
      (by decide) (by decide) (by decide)⟩

/-! ### Extension discovery (`initialize`, lines 65-126)

Each immediate child of `EXTENSIONS_ROOT` is modelled as an `ExtFolder`
carrying the outcomes of the filesystem operations the scan performs on it:
its directory listing, the existence of `package.json`, the parse result of
`package.json` (`none` when `JSON.parse` throws), and the existence of the
resolved browser main file and of `package.nls.json`.
-/

/-- The fields of a parsed `package.json` the scan inspects.  `main` and
`browser` are `none` when absent (JS `undefined`). -/
structure PackageJSON where
  main : Option String
  browser : Option String
  extensionKind : Option (List String)
  deriving DecidableEq, Repr

/-- A child of the extensions directory together with the filesystem
oracle answers for it. -/
structure ExtFolder where
  name : String
  isFile : Bool
  childrenNames : Option (List String)
  packageJSONExists : Bool
  packageJSONParse : Option PackageJSON
  browserMainExists : Bool
  nlsExists : Bool
  deriving DecidableEq, Repr

/-- The catalog entry pushed on lines 110-116. -/
structure BuiltinExtension where
  extensionPath : String
  packageJSON : PackageJSON
  packageNLSPath : Option (List String)
  readmePath : Option (List String)
  changelogPath : Option (List String)
  deriving DecidableEq, Repr

/-- The case-insensitive test `/^readme(\.txt|\.md|)$/i` (line 82). -/
def isReadmeName (s : String) : Bool :=
  s.toLower = "readme" || s.toLower = "readme.txt" || s.toLower = "readme.md"

/-- The case-insensitive test `/^changelog(\.txt|\.md|)$/i` (line 84). -/
def isChangelogName (s : String) : Bool :=
  s.toLower = "changelog" || s.toLower = "changelog.txt" ||
    s.toLower = "changelog.md"

/-- Lines 98-101: append `.js` when the declared browser main has no `.js`
extension (appending changes the last path segment). -/
def addJsIfNeeded (segs : List String) : List String :=
  match segs.getLast? with
  | none => segs
  | some last =>
    if extnameStr last = ".js" then segs else segs.dropLast ++ [last ++ ".js"]

/-- The `path.relative(EXTENSIONS_ROOT, mainFilePath)` string recorded in
the unbuilt warning list (line 103). -/
def mainFileRel (folderName browser : String) : String :=
  String.intercalate "/" (addJsIfNeeded (normRel ([folderName] ++ splitSegs browser)))

/-- Per-folder body of the scan (lines 70-121): the produced catalog entry,
if any, and the unbuilt-main warnings. -/
def processFolder (f : ExtFolder) : Option BuiltinExtension × List String :=
  match f.childrenNames with
  | none => (none, [])
  | some children =>
    let readme := (children.filter isReadmeName).head?
    let changelog := (children.filter isChangelogName).head?
    if f.packageJSONExists then
      match f.packageJSONParse with
      | none => (none, [])
      | some pj =>
        if jsTruthy pj.main && !jsTruthy pj.browser then (none, [])
        else
          let browserStep : PackageJSON × List String :=
            if jsTruthy pj.browser then
              ({ pj with main := pj.browser },
                if f.browserMainExists then []
                else [mainFileRel f.name (pj.browser.getD "")])
            else (pj, [])
          let pj2 := { browserStep.1 with extensionKind := some ["web"] }
          (some
            ⟨f.name, pj2,
              if f.nlsExists then some [f.name, "package.nls.json"] else none,
              readme.map fun r => [f.name, r],
              changelog.map fun c => [f.name, c]⟩,
            browserStep.2)
    else (none, [])

/-- Model of `initialize` (lines 65-126): scan the non-file children,
collecting catalog entries and unbuilt warnings.  (`Promise.all` pushes in
completion order; only the set of entries is specified, and we keep
directory order.) -/
def discoverExtensions (entries : List ExtFolder) :
    List BuiltinExtension × List String :=
  (entries.filter fun f => !f.isFile).foldl
    (fun acc f =>
      let r := processFolder f
      (acc.1 ++ r.1.toList, acc.2 ++ r.2))
    ([], [])

/-- C5 (claim): discovery over a directory with one web-capable extension
(browser entry point, or no native entry point) and one native-only
extension yields a catalog containing exactly the first, and every
descriptor with a native-only entry point is excluded entirely. -/
theorem discoverExtensions_excludes_native_only
    (fweb fnat g : ExtFolder) (cw : List String) (pjw pjn pjg : PackageJSON)
    (hwFile : fweb.isFile = false) (hnFile : fnat.isFile = false)
    (hwChildren : fweb.childrenNames = some cw)
    (hwPkg : fweb.packageJSONExists = true)
    (hwParse : fweb.packageJSONParse = some pjw)
    (hwWeb : ¬ (jsTruthy pjw.main = true ∧ jsTruthy pjw.browser = false))
    (hnParse : fnat.packageJSONParse = some pjn)
    (hnMain : jsTruthy pjn.main = true) (hnNoBrowser : jsTruthy pjn.browser = false)
    (hgParse : g.packageJSONParse = some pjg)
    (hgMain : jsTruthy pjg.main = true) (hgNoBrowser : jsTruthy pjg.browser = false) :
    (discoverExtensions [fweb, fnat]).1 = (processFolder fweb).1.toList
    ∧ (processFolder fweb).1.isSome = true
    ∧ (processFolder g).1 = none := by
  have hnat : (processFolder fnat).1 = none := by
    rw [processFolder]
    cases fnat.childrenNames with
    | none => rfl
    | some cs =>
      cases hpk : fnat.packageJSONExists <;>
        simp [hnParse, hnMain, hnNoBrowser]
  have hg : (processFolder g).1 = none := by
    rw [processFolder]
    cases g.childrenNames with
    | none => rfl
    | some cs =>
      cases hpk : g.packageJSONExists <;>
        simp [hgParse, hgMain, hgNoBrowser]
  have hweb : (processFolder fweb).1.isSome = true := by
    rw [processFolder, hwChildren, hwPkg]
    simp only [if_true, hwParse]
    have : (jsTruthy pjw.main && !jsTruthy pjw.browser) = false := by
      cases hm : jsTruthy pjw.main <;> cases hb : jsTruthy pjw.browser <;>
        simp_all
    simp [this]
  refine ⟨?_, hweb, hg⟩
  simp [discoverExtensions, hwFile, hnFile, hnat]

/-- Witness for C5: a web extension (`browser` entry, no `main`) and a
native-only extension (`main`, no `browser`). -/
theorem discoverExtensions_excludes_native_only_witness :
    (discoverExtensions
        [⟨"webext", false, some ["README.md"], true,
            some ⟨none, some "out/browser", none⟩, true, false⟩,
          ⟨"nativeext", false, some [], true,
            some ⟨some "out/main", none, none⟩, true, false⟩]).1 =
      (processFolder ⟨"webext", false, some ["README.md"], true,
          some ⟨none, some "out/browser", none⟩, true, false⟩).1.toList
    ∧ (processFolder ⟨"webext", false, some ["README.md"], true,
        some ⟨none, some "out/browser", none⟩, true, false⟩).1.isSome = true
    ∧ (processFolder ⟨"nativeext", false, some [], true,
        some ⟨some "out/main", none, none⟩, true, false⟩).1 = none :=
  discoverExtensions_excludes_native_only
    ⟨"webext", false, some ["README.md"], true,
      some ⟨none, some "out/browser", none⟩, true, false⟩
    ⟨"nativeext", false, some [], true,
      some ⟨some "out/main", none, none⟩, true, false⟩
    ⟨"nativeext", false, some [], true,
      some ⟨some "out/main", none, none⟩, true, false⟩
    ["README.md"] ⟨none, some "out/browser", none⟩
    ⟨some "out/main", none, none⟩ ⟨some "out/main", none, none⟩
    rfl rfl rfl rfl rfl (by decide) rfl (by decide) (by decide) rfl
    (by decide) (by decide)

/-! ### C6: merging of the extra query parameters -/

/-- Spec-side rendering of the appended pairs after the first: each pair is
joined with `&`. -/
def ampJoinTail : List (String × String) → String
  | [] => ""
  | kv :: rest => "&" ++ kv.1 ++ "=" ++ kv.2 ++ ampJoinTail rest

/-- Spec-side rendering of the appended pairs, following the claim's words:
the first pair is appended with no separator, subsequent pairs are
`&`-joined. -/
def ampJoin : List (String × String) → String
  | [] => ""
  | kv :: rest => kv.1 ++ "=" ++ kv.2 ++ ampJoinTail rest

theorem str_ne_empty_left (a b : String) (ha : a ≠ "") : a ++ b ≠ "" := by
  intro h
  apply ha
  have hd := congrArg String.data h
  rw [String.data_append] at hd
  have h2 : a.data = [] := (List.append_eq_nil.mp hd).1
  cases a with
  | mk d => cases h2; rfl

theorem str_ne_empty_right (a b : String) (hb : b ≠ "") : a ++ b ≠ "" := by
  intro h
  apply hb
  have hd := congrArg String.data h
  rw [String.data_append] at hd
  have h2 : b.data = [] := (List.append_eq_nil.mp hd).2
  cases b with
  | mk d => cases h2; rfl

theorem foldl_mergeStep (l : List (String × String)) :
    ∀ (s : String) (n : Nat), s ≠ "" →
      (l.foldl mergeStep (some s, n + 1)).1 = some (s ++ ampJoinTail l) := by
  induction l with
  | nil => intro s n _; simp [ampJoinTail]
  | cons kv rest ih =>
    intro s n hs
    have hstep : mergeStep (some s, n + 1) kv =
        (some (s ++ "&" ++ kv.1 ++ "=" ++ kv.2), n + 2) := by
      simp [mergeStep]
    rw [List.foldl_cons, hstep,
      ih (s ++ "&" ++ kv.1 ++ "=" ++ kv.2) (n + 1)
        (str_ne_empty_left _ _ (str_ne_empty_left _ _
          (str_ne_empty_left _ _ (str_ne_empty_right _ _ (by decide)))))]
    simp [ampJoinTail, String.append_assoc]

/-- The merge loop of lines 276-285 produces exactly the claim's shape:
`vscodeQuery` untouched when there is nothing to append, otherwise the
falsy-defaulted `vscodeQuery` followed by the pairs, the first with no
separator and the rest `&`-joined. -/
theorem mergeExtras_spec (vq : Option String) (extras : List (String × String)) :
    mergeExtras vq extras =
      if extras = [] then vq else some (vq.getD "" ++ ampJoin extras) := by
  cases extras with
  | nil => simp [mergeExtras]
  | cons kv rest =>
    have hstep : mergeStep (vq, 0) kv =
        (some (vq.getD "" ++ "" ++ kv.1 ++ "=" ++ kv.2), 1) := by
      simp [mergeStep]
    have hne : (vq.getD "" ++ "" ++ kv.1 ++ "=" ++ kv.2) ≠ "" :=
      str_ne_empty_left _ _ (str_ne_empty_right _ _ (by decide))
    rw [mergeExtras, List.foldl_cons, hstep]
    rw [show (1 : Nat) = 0 + 1 from rfl, foldl_mergeStep rest _ 0 hne]
    simp [ampJoin, ampJoinTail, String.append_assoc, String.append_empty]

theorem filterMap_congr_mem {α β : Type} (f g : α → Option β) :
    ∀ l : List α, (∀ x ∈ l, f x = g x) → l.filterMap f = l.filterMap g := by
  intro l
  induction l with
  | nil => intro _; rfl
  | cons a t ih =>
    intro h
    rw [List.filterMap_cons, List.filterMap_cons, h a (List.mem_cons_self _ _),
      ih (fun x hx => h x (List.mem_cons_of_mem _ hx))]

theorem getFirstQueryValue_cons_self (k : String) (vs : List String) (rest : Query) :
    getFirstQueryValue ((k, vs) :: rest) k = vs.head? := by
  simp [getFirstQueryValue, List.lookup]

theorem getFirstQueryValue_cons_ne (k k2 : String) (vs : List String) (rest : Query)
    (h : k2 ≠ k) :
    getFirstQueryValue ((k, vs) :: rest) k2 = getFirstQueryValue rest k2 := by
  simp [getFirstQueryValue, List.lookup, beq_eq_false_iff_ne.mpr h]

/-- Without array-index keys, the JS enumeration order is creation order. -/
theorem jsEnumKeys_no_numeric (keys : List String)
    (h : ∀ k ∈ keys, isArrayIndex k = false) : jsEnumKeys keys = keys := by
  have h1 : keys.filter isArrayIndex = [] := by
    rw [List.filter_eq_nil_iff]
    intro a ha
    simp [h a ha]
  have h2 : keys.filter (fun k => !isArrayIndex k) = keys := by
    rw [List.filter_eq_self]
    intro a ha
    simp [h a ha]
  rw [jsEnumKeys, h1, h2]
  rfl

theorem filterMapKeys_encounter (ig : List String) :
    ∀ q : Query, (q.map Prod.fst).Nodup →
      ((q.map Prod.fst).filterMap fun k =>
        if ig.contains k then none
        else (getFirstQueryValue q k).map fun v => (k, v)) =
      (q.filterMap fun kv =>
        if ig.contains kv.1 then none
        else (kv.2.head?).map fun v => (kv.1, v)) := by
  intro q
  induction q with
  | nil => intro _; rfl
  | cons kv rest ih =>
    obtain ⟨k, vs⟩ := kv
    intro hnd
    have hk : k ∉ rest.map Prod.fst := (List.nodup_cons.mp (by simpa using hnd)).1
    have hnd2 : (rest.map Prod.fst).Nodup := (List.nodup_cons.mp (by simpa using hnd)).2
    have htail : ((rest.map Prod.fst).filterMap fun k2 =>
        if ig.contains k2 then none
        else (getFirstQueryValue ((k, vs) :: rest) k2).map fun v => (k2, v)) =
        rest.filterMap fun kv2 =>
          if ig.contains kv2.1 then none
          else (kv2.2.head?).map fun v => (kv2.1, v) := by
      rw [filterMap_congr_mem _
        (fun k2 => if ig.contains k2 then none
          else (getFirstQueryValue rest k2).map fun v => (k2, v))
        (rest.map Prod.fst)
        (fun k2 hk2 => by
          rw [getFirstQueryValue_cons_ne k k2 vs rest
            (fun he => hk (he ▸ hk2))])]
      exact ih hnd2
    simp only [List.map_cons, List.filterMap_cons]
    rw [getFirstQueryValue_cons_self, htail]

/-- With no array-index extra keys and distinct keys, the extras are read
off the parsed query in encounter order. -/
theorem getFirstQueryValues_encounter (q : Query) (ig : List String)
    (hnd : (q.map Prod.fst).Nodup)
    (hno : ∀ k ∈ q.map Prod.fst, isArrayIndex k = false) :
    getFirstQueryValues q ig =
      q.filterMap fun kv =>
        if ig.contains kv.1 then none
        else (kv.2.head?).map fun v => (kv.1, v) := by
  rw [getFirstQueryValues, jsEnumKeys_no_numeric _ hno]
  exact filterMapKeys_encounter ig q hnd

/-- C6 (corrected): in a `/callback` registration with a truthy request id,
the extra query parameters are appended to the stored query string as
`key=value` pairs, the first with no separator and subsequent pairs joined
with `&`, in the JavaScript `for`-`in` enumeration order of the parsed
query object: array-index-named parameters first in ascending numeric
order, then the remaining parameters in encounter order — in particular in
encounter order whenever no parameter has an array-index name (`hno`,
together with key distinctness `hnd`, discharges that). -/
theorem callback_extra_params_appended
    (q : Query) (x1 x2 x3 x4 x5 x6 : Option String)
    (h1 : decodeQueryParam (getFirstQueryValue q "vscode-requestId") = some x1)
    (h2 : decodeQueryParam (getFirstQueryValue q "vscode-scheme") = some x2)
    (h3 : decodeQueryParam (getFirstQueryValue q "vscode-authority") = some x3)
    (h4 : decodeQueryParam (getFirstQueryValue q "vscode-path") = some x4)
    (h5 : decodeQueryParam (getFirstQueryValue q "vscode-query") = some x5)
    (h6 : decodeQueryParam (getFirstQueryValue q "vscode-fragment") = some x6)
    (ht : jsTruthy x1 = true)
    (hnd : (q.map Prod.fst).Nodup)
    (hno : ∀ k ∈ q.map Prod.fst, isArrayIndex k = false) :
    callbackRegistration q = some (some (x1.getD "",
      ⟨if jsTruthy x2 then x2.getD "" else "code-oss", x3, x4,
        if getFirstQueryValues q wellKnownKeys = [] then x5
        else some (x5.getD "" ++ ampJoin (getFirstQueryValues q wellKnownKeys)),
        x6⟩))
    ∧ getFirstQueryValues q wellKnownKeys =
        q.filterMap fun kv =>
          if wellKnownKeys.contains kv.1 then none
          else (kv.2.head?).map fun v => (kv.1, v) := by
  refine ⟨?_, getFirstQueryValues_encounter q wellKnownKeys hnd hno⟩
  rw [callbackRegistration, h1, h2, h3, h4, h5, h6]
  simp [ht, mergeExtras_spec]

/-- Witness for C6: extras `a=1` and `b=2` around a `vscode-query` of
`base`; the stored query is `basea=1&b=2` (first pair unseparated), and
these non-numeric extras come in encounter order. -/
theorem callback_extra_params_appended_witness :
    (callbackRegistration
        [("vscode-requestId", ["r"]), ("a", ["1"]), ("vscode-query", ["base"]),
          ("b", ["2"])] =
      some (some ((some "r").getD "",
        ⟨if jsTruthy (none : Option String) then (none : Option String).getD ""
            else "code-oss",
          none, none,
          if getFirstQueryValues
              [("vscode-requestId", ["r"]), ("a", ["1"]),
                ("vscode-query", ["base"]), ("b", ["2"])] wellKnownKeys = []
            then some "base"
            else some ((some "base").getD "" ++
              ampJoin (getFirstQueryValues
                [("vscode-requestId", ["r"]), ("a", ["1"]),
                  ("vscode-query", ["base"]), ("b", ["2"])] wellKnownKeys)),
          none⟩)))
    ∧ getFirstQueryValues
        [("vscode-requestId", ["r"]), ("a", ["1"]), ("vscode-query", ["base"]),
          ("b", ["2"])] wellKnownKeys =
      [("vscode-requestId", ["r"]), ("a", ["1"]), ("vscode-query", ["base"]),
          ("b", ["2"])].filterMap fun kv =>
        if wellKnownKeys.contains kv.1 then none
        else (kv.2.head?).map fun v => (kv.1, v) :=
  callback_extra_params_appended
    [("vscode-requestId", ["r"]), ("a", ["1"]), ("vscode-query", ["base"]),
      ("b", ["2"])]
    (some "r") none none none (some "base") none
    (by decide) (by decide) (by decide) (by decide) (by decide) (by decide)
    (by decide) (by decide) (by decide)

/-- C6 counterexample to the claim as stated: on
`/callback?vscode-requestId=r&b=2&1=x` the extras are encountered as `b`
then `1`, but the `for`-`in` loop enumerates the array-index key `1`
first, so the stored query is `1=x&b=2`, not the encounter order
`b=2&1=x`. -/
theorem callback_numeric_key_order_counterexample :
    getFirstQueryValues [("vscode-requestId", ["r"]), ("b", ["2"]), ("1", ["x"])]
        wellKnownKeys = [("1", "x"), ("b", "2")]
    ∧ callbackRegistration
        [("vscode-requestId", ["r"]), ("b", ["2"]), ("1", ["x"])] =
      some (some ("r", ⟨"code-oss", none, none, some "1=x&b=2", none⟩))
    ∧ ("1=x&b=2" : String) ≠ "b=2&1=x" := by
  decide

/-! ### C7 and C9: the 400 conditions and the stored scheme -/

theorem uriDecodeAux_cons_ne_nil (f : Nat) (c : Char) (rest out : List Char)
    (h : uriDecodeAux f (c :: rest) = some out) : out ≠ [] := by
  cases f with
  | zero => simp [uriDecodeAux] at h
  | succ f =>
    rw [uriDecodeAux] at h
    split at h
    · split at h
      · exact absurd h (by simp)
      · obtain ⟨l2, _, hout⟩ := Option.map_eq_some'.mp h
        subst hout
        exact List.cons_ne_nil _ _
    · obtain ⟨l2, _, hout⟩ := Option.map_eq_some'.mp h
      subst hout
      exact List.cons_ne_nil _ _

/-- Decoding a nonempty string never yields the empty string. -/
theorem decodeURIComponent_ne_empty (v w : String) (hv : v ≠ "")
    (h : decodeURIComponent v = some w) : w ≠ "" := by
  rw [decodeURIComponent] at h
  obtain ⟨out, hout, hw⟩ := Option.map_eq_some'.mp h
  cases hvd : v.data with
  | nil =>
    exact absurd (by cases v with | mk d => cases hvd; rfl) hv
  | cons c rest =>
    rw [hvd] at hout
    have hne := uriDecodeAux_cons_ne_nil _ c rest out hout
    intro hwe
    rw [← hw] at hwe
    exact hne (congrArg String.data hwe)

/-- The re-decoding of lines 261-268 preserves truthiness. -/
theorem decodeQueryParam_truthy (raw x : Option String)
    (h : decodeQueryParam raw = some x) : jsTruthy x = jsTruthy raw := by
  cases raw with
  | none =>
    simp only [decodeQueryParam, Option.some.injEq] at h
    rw [← h]
  | some v =>
    by_cases hv : v = ""
    · subst hv
      simp only [decodeQueryParam, if_pos, Option.some.injEq] at h
      rw [← h]
    · rw [decodeQueryParam, if_neg hv] at h
      obtain ⟨w, hw, hx⟩ := Option.map_eq_some'.mp h
      subst hx
      have hwne := decodeURIComponent_ne_empty v w hv hw
      have e1 : (w != "") = true := bne_iff_ne.mpr hwne
      have e2 : (v != "") = true := bne_iff_ne.mpr hv
      simp [jsTruthy, e1, e2]

/-- A segment list free of `""`, `"."` and `".."` is already normal. -/
theorem normAbsRev_clean : ∀ (l stack : List String),
    (∀ s ∈ l, s ≠ "" ∧ s ≠ "." ∧ s ≠ "..") →
    normAbsRev stack l = l.reverse ++ stack := by
  intro l
  induction l with
  | nil => intro stack _; simp [normAbsRev]
  | cons s rest ih =>
    intro stack h
    obtain ⟨hs1, hs2, hs3⟩ := h s (List.mem_cons_self s rest)
    have h1 : ¬ (s = "" ∨ s = ".") := by
      rintro (h' | h') <;> simp_all
    have hstep : normAbsRev stack (s :: rest) = normAbsRev (s :: stack) rest := by
      rw [normAbsRev.eq_def]
      simp [h1, hs3]
    rw [hstep, ih (s :: stack) (fun t ht => h t (List.mem_cons_of_mem _ ht))]
    simp

theorem normAbs_clean (l : List String)
    (h : ∀ s ∈ l, s ≠ "" ∧ s ≠ "." ∧ s ≠ "..") : normAbs l = l := by
  rw [normAbs, normAbsRev_clean l [] h]
  simp

theorem isPrefixOf_append_self :
    ∀ (root segs : List String), root.isPrefixOf (root ++ segs) = true := by
  intro root
  induction root with
  | nil => intro segs; cases segs <;> rfl
  | cons a t ih => intro segs; simp [List.isPrefixOf, ih]

theorem insideRoot_append_true (root segs : List String) (h : segs ≠ []) :
    insideRoot root (root ++ segs) = true := by
  have hlen : 0 < segs.length := List.length_pos.mpr h
  simp [insideRoot, isPrefixOf_append_self, List.length_append]
  omega

/-- Serving a clean target under a clean root never yields 400. -/
theorem serveFile_clean_target_not_400 (appRoot : List String) (fs : FsModel)
    (inm : Option String) (segs : List String) (ct : Option String)
    (hroot : ∀ s ∈ appRoot, s ≠ "" ∧ s ≠ "." ∧ s ≠ "..")
    (hsegs : ∀ s ∈ segs, s ≠ "" ∧ s ≠ "." ∧ s ≠ "..") (hne : segs ≠ []) :
    (serveFile appRoot fs inm (joinAbs appRoot segs) ct).1.status ≠ 400 := by
  have hcat : ∀ s ∈ appRoot ++ segs, s ≠ "" ∧ s ≠ "." ∧ s ≠ ".." := by
    intro s hs
    rcases List.mem_append.mp hs with h' | h'
    · exact hroot s h'
    · exact hsegs s h'
  have hj : joinAbs appRoot segs = appRoot ++ segs := by
    rw [joinAbs, normAbs_clean _ hcat]
  rw [hj, serveFile]
  rw [normAbs_clean _ hcat, insideRoot_append_true _ _ hne]
  simp only [if_true]
  cases fs.stat (appRoot ++ segs) with
  | none => simp
  | some st =>
    by_cases hm : inm = some (etagOf st) <;> simp [hm]

/-- Shared characterization of a `/callback` registration whose six decoded
well-known values are given. -/
theorem callbackRegistration_eq
    (q : Query) (x1 x2 x3 x4 x5 x6 : Option String)
    (h1 : decodeQueryParam (getFirstQueryValue q "vscode-requestId") = some x1)
    (h2 : decodeQueryParam (getFirstQueryValue q "vscode-scheme") = some x2)
    (h3 : decodeQueryParam (getFirstQueryValue q "vscode-authority") = some x3)
    (h4 : decodeQueryParam (getFirstQueryValue q "vscode-path") = some x4)
    (h5 : decodeQueryParam (getFirstQueryValue q "vscode-query") = some x5)
    (h6 : decodeQueryParam (getFirstQueryValue q "vscode-fragment") = some x6) :
    callbackRegistration q =
      if jsTruthy x1 then
        some (some (x1.getD "",
          ⟨if jsTruthy x2 then x2.getD "" else "code-oss", x3, x4,
            mergeExtras x5 (getFirstQueryValues q wellKnownKeys), x6⟩))
      else some none := by
  rw [callbackRegistration, h1, h2, h3, h4, h5, h6]

/-- The response status of a callback handler outcome. -/
def respStatusOf (r : Option (HttpResponse × List Access × CBMap)) : Option Nat :=
  r.map fun t => t.1.status

/-- C7 (corrected): `/fetch-callback` answers 400 exactly when
`vscode-requestId` is absent or empty; `/callback` does the same provided
every present well-known parameter value survives the second URI-decoding
(and the application root is a clean absolute path). -/
theorem callback_fetch_400_iff_missing_id
    (appRoot : List String) (fs : FsModel) (inm : Option String)
    (q : Query) (m : CBMap) (q2 : Query) (m2 : CBMap)
    (hclean : ∀ s ∈ appRoot, s ≠ "" ∧ s ≠ "." ∧ s ≠ "..")
    (hdec : ∀ k ∈ wellKnownKeys,
      (decodeQueryParam (getFirstQueryValue q k)).isSome = true) :
    ((handleFetchCallback q2 m2).1.status = 400
      ↔ jsTruthy (getFirstQueryValue q2 "vscode-requestId") = false)
    ∧ (handleCallback appRoot fs inm q m).isSome = true
    ∧ (respStatusOf (handleCallback appRoot fs inm q m) = some 400
      ↔ jsTruthy (getFirstQueryValue q "vscode-requestId") = false) := by
  refine ⟨?_, ?_⟩
  · cases ht : jsTruthy (getFirstQueryValue q2 "vscode-requestId") <;>
      simp [handleFetchCallback, ht]
  · obtain ⟨x1, hx1⟩ := Option.isSome_iff_exists.mp
      (hdec "vscode-requestId" (by simp [wellKnownKeys]))
    obtain ⟨x2, hx2⟩ := Option.isSome_iff_exists.mp
      (hdec "vscode-scheme" (by simp [wellKnownKeys]))
    obtain ⟨x3, hx3⟩ := Option.isSome_iff_exists.mp
      (hdec "vscode-authority" (by simp [wellKnownKeys]))
    obtain ⟨x4, hx4⟩ := Option.isSome_iff_exists.mp
      (hdec "vscode-path" (by simp [wellKnownKeys]))
    obtain ⟨x5, hx5⟩ := Option.isSome_iff_exists.mp
      (hdec "vscode-query" (by simp [wellKnownKeys]))
    obtain ⟨x6, hx6⟩ := Option.isSome_iff_exists.mp
      (hdec "vscode-fragment" (by simp [wellKnownKeys]))
    have hregeq := callbackRegistration_eq q x1 x2 x3 x4 x5 x6
      hx1 hx2 hx3 hx4 hx5 hx6
    have htr := decodeQueryParam_truthy _ _ hx1
    cases hx1t : jsTruthy x1 with
    | false =>
      rw [hx1t] at hregeq
      simp only [Bool.false_eq_true, if_false] at hregeq
      rw [hx1t] at htr
      constructor
      · simp [handleCallback, hregeq]
      · simp [respStatusOf, handleCallback, hregeq, htr.symm]
    | true =>
      rw [hx1t] at hregeq
      simp only [if_true] at hregeq
      rw [hx1t] at htr
      have hstatus := serveFile_clean_target_not_400 appRoot fs inm
        ["resources", "serverless", "callback.html"] (some "text/html")
        hclean (by decide) (by decide)
      constructor
      · simp [handleCallback, hregeq]
      · simp [respStatusOf, handleCallback, hregeq, ← htr, hstatus]

/-- Witness for C7: a fetch with no id, and a callback with id `abc`. -/
theorem callback_fetch_400_iff_missing_id_witness :
    ((handleFetchCallback [] []).1.status = 400
      ↔ jsTruthy (getFirstQueryValue [] "vscode-requestId") = false)
    ∧ (handleCallback ["vscode"] ⟨fun _ => none⟩ none
        [("vscode-requestId", ["abc"])] []).isSome = true
    ∧ (respStatusOf (handleCallback ["vscode"] ⟨fun _ => none⟩ none
        [("vscode-requestId", ["abc"])] []) = some 400
      ↔ jsTruthy (getFirstQueryValue [("vscode-requestId", ["abc"])]
          "vscode-requestId") = false) :=
  callback_fetch_400_iff_missing_id ["vscode"] ⟨fun _ => none⟩ none
    [("vscode-requestId", ["abc"])] [] [] [] (by decide) (by decide)

/-- C7 counterexample to the claim as stated: on a `/callback` request with
no `vscode-requestId` at all but a well-known value whose second decoding
throws (query value `%zz`, reachable from the raw query
`vscode-scheme=%25zz`), the handler throws before responding, so no 400 is
produced despite the missing id. -/
theorem callback_malformed_escape_counterexample :
    jsTruthy (getFirstQueryValue [("vscode-scheme", ["%zz"])]
      "vscode-requestId") = false
    ∧ handleCallback ["vscode"] ⟨fun _ => none⟩ none
        [("vscode-scheme", ["%zz"])] [] = none := by
  decide

/-- C9 (corrected): the stored descriptor's scheme defaults to `code-oss`
exactly when the decoded `vscode-scheme` value is falsy (equivalently, the
raw parameter is absent or empty), and a non-empty value is stored after
the second URI-decoding (`x2` is that decoding of the raw value). -/
theorem callback_scheme_default_and_decoded
    (q : Query) (x1 x2 x3 x4 x5 x6 : Option String) (rid : String)
    (d : CallbackDesc)
    (h1 : decodeQueryParam (getFirstQueryValue q "vscode-requestId") = some x1)
    (h2 : decodeQueryParam (getFirstQueryValue q "vscode-scheme") = some x2)
    (h3 : decodeQueryParam (getFirstQueryValue q "vscode-authority") = some x3)
    (h4 : decodeQueryParam (getFirstQueryValue q "vscode-path") = some x4)
    (h5 : decodeQueryParam (getFirstQueryValue q "vscode-query") = some x5)
    (h6 : decodeQueryParam (getFirstQueryValue q "vscode-fragment") = some x6)
    (hreg : callbackRegistration q = some (some (rid, d))) :
    d.scheme = (if jsTruthy x2 then x2.getD "" else "code-oss")
    ∧ jsTruthy x2 = jsTruthy (getFirstQueryValue q "vscode-scheme") := by
  have hregeq := callbackRegistration_eq q x1 x2 x3 x4 x5 x6
    h1 h2 h3 h4 h5 h6
  refine ⟨?_, decodeQueryParam_truthy _ _ h2⟩
  rw [hregeq] at hreg
  cases hx1t : jsTruthy x1 with
  | false => rw [hx1t] at hreg; simp at hreg
  | true =>
    rw [hx1t] at hreg
    simp only [if_true, Option.some.injEq, Prod.mk.injEq] at hreg
    rw [← hreg.2]

/-- Witness for C9: scheme `https` is stored as given (it decodes to
itself); the id is `r`. -/
theorem callback_scheme_default_and_decoded_witness :
    ("https" : String) = (if jsTruthy (some "https") then
        (some "https").getD "" else "code-oss")
    ∧ jsTruthy (some "https") =
      jsTruthy (getFirstQueryValue
        [("vscode-requestId", ["r"]), ("vscode-scheme", ["https"])]
        "vscode-scheme") :=
  callback_scheme_default_and_decoded
    [("vscode-requestId", ["r"]), ("vscode-scheme", ["https"])]
    (some "r") (some "https") none none none none
    "r" ⟨"https", none, none, none, none⟩
    (by decide) (by decide) (by decide) (by decide) (by decide) (by decide)
    (by decide)

/-- C9 counterexample to the claim as stated: the non-empty scheme value
`%41` (as it appears in the parsed query) is stored as `A`, not as given. -/
theorem callback_scheme_double_decode_counterexample :
    callbackRegistration
        [("vscode-requestId", ["r"]), ("vscode-scheme", ["%41"])] =
      some (some ("r", ⟨"A", none, none, none, none⟩))
    ∧ ("A" : String) ≠ "%41" := by
  decide

/-! ### C8: the root document's folder descriptor (`handleRoot`, lines 223-241) -/

/-- The character class `[^#]` of the query-extraction regex. -/
def notHash (c : Char) : Bool := c != '#'

/-- Model of the regex search `/\?([^#]+)/` on `req.url` (line 224): the
maximal run of at least one non-`#` character after the first `?` at which
the match succeeds. -/
def findQuery : List Char → Option (List Char)
  | [] => none
  | c :: rest =>
    if c = '?' then
      let cap := rest.takeWhile notHash
      if cap.isEmpty then findQuery rest else some cap
    else findQuery rest

/-- WHATWG `application/x-www-form-urlencoded` decoding, modelled at the
byte level with fuel (the input length suffices): `+` becomes a space, a
valid `%XX` escape becomes the byte (it never throws; multi-byte UTF-8
reassembly is not modelled), anything else is literal. -/
def formDecodeAux : Nat → List Char → List Char
  | 0, l => l
  | _ + 1, [] => []
  | fuel + 1, c :: rest =>
    if c = '+' then ' ' :: formDecodeAux fuel rest
    else if c = '%' then
      match rest with
      | h :: l :: rest2 =>
        match hexVal h, hexVal l with
        | some hv, some lv => Char.ofNat (hv * 16 + lv) :: formDecodeAux fuel rest2
        | _, _ => c :: formDecodeAux fuel rest
      | _ => c :: formDecodeAux fuel rest
    else c :: formDecodeAux fuel rest

/-- Decoding of one `application/x-www-form-urlencoded` token. -/
def formDecodeChars (l : List Char) : List Char := formDecodeAux l.length l

/-- Split one `name=value` pair at the first `=`; the value keeps any later
`=` characters, and is empty when there is no `=`. -/
def parsePair (p : List Char) : List Char × List Char :=
  (p.takeWhile (fun c => c != '='), (p.dropWhile (fun c => c != '=')).tail)

/-- Model of `new URLSearchParams(qs).get(key)` (lines 227-228): split on
`&`, drop empty pieces, split each at the first `=`, decode, and return the
value of the first pair whose decoded name equals `key`. -/
def searchParamsGet (qs : List Char) (key : String) : Option String :=
  let pairs := ((splitOnChar '&' qs).filter (fun p => !p.isEmpty)).map parsePair
  (pairs.find? fun pr => String.mk (formDecodeChars pr.1) == key).map
    fun pr => String.mk (formDecodeChars pr.2)

/-- JS `ghPath.startsWith('/')` (line 229). -/
def startsWithSlash (s : String) : Bool :=
  match s.data with
  | '/' :: _ => true
  | _ => false

/-- The folder descriptor selected into the embedded configuration
(lines 237-239). -/
structure FolderUri where
  scheme : String
  authority : Option String
  path : String
  deriving DecidableEq, Repr

/-- Lines 223-241: extract the optional `gh` query parameter from the
request URL, root it with `/` when truthy and not already rooted, and
select the folder descriptor of the embedded configuration. -/
def handleRootFolderUri (reqUrl : String) : FolderUri :=
  let ghPath0 := (findQuery reqUrl.data).bind fun qs => searchParamsGet qs "gh"
  let ghPath :=
    if jsTruthy ghPath0 && !startsWithSlash (ghPath0.getD "") then
      some ("/" ++ ghPath0.getD "")
    else ghPath0
  if jsTruthy ghPath then ⟨"github", some "HEAD", ghPath.getD ""⟩
  else ⟨"memfs", none, "/sample-folder"⟩

theorem takeWhile_all (p : Char → Bool) :
    ∀ l : List Char, (∀ c ∈ l, p c = true) → l.takeWhile p = l := by
  intro l
  induction l with
  | nil => intro _; rfl
  | cons c rest ih =>
    intro h
    rw [List.takeWhile_cons, h c (List.mem_cons_self _ _),
      ih (fun x hx => h x (List.mem_cons_of_mem _ hx))]
    simp

theorem splitOnChar_no_sep (c : Char) :
    ∀ l : List Char, (∀ x ∈ l, x ≠ c) → splitOnChar c l = [l] := by
  intro l
  induction l with
  | nil => intro _; rfl
  | cons x xs ih =>
    intro h
    rw [splitOnChar, ih (fun t ht => h t (List.mem_cons_of_mem _ ht))]
    simp [h x (List.mem_cons_self _ _)]

theorem formDecodeAux_clean :
    ∀ (fuel : Nat) (l : List Char), l.length ≤ fuel →
      (∀ x ∈ l, x ≠ '%' ∧ x ≠ '+') → formDecodeAux fuel l = l := by
  intro fuel
  induction fuel with
  | zero => intro l _ _; rfl
  | succ f ih =>
    intro l hl h
    cases l with
    | nil => rfl
    | cons c rest =>
      obtain ⟨hc1, hc2⟩ := h c (List.mem_cons_self _ _)
      have hstep : formDecodeAux (f + 1) (c :: rest) =
          c :: formDecodeAux f rest := by
        rw [formDecodeAux.eq_def]
        simp [hc1, hc2]
      have hlen : rest.length ≤ f := by
        simp only [List.length_cons] at hl
        omega
      rw [hstep, ih rest hlen (fun x hx => h x (List.mem_cons_of_mem _ hx))]

theorem formDecode_clean (l : List Char)
    (h : ∀ x ∈ l, x ≠ '%' ∧ x ≠ '+') : formDecodeChars l = l :=
  formDecodeAux_clean l.length l le_rfl h

theorem find?_cons_true {α : Type} (p : α → Bool) (a : α) (l : List α)
    (h : p a = true) : List.find? p (a :: l) = some a := by
  simp [List.find?, h]

theorem findQuery_cons_ne (c : Char) (rest : List Char) (h : c ≠ '?') :
    findQuery (c :: rest) = findQuery rest := by
  rw [findQuery.eq_def]
  simp [h]

theorem findQuery_question (rest : List Char) :
    findQuery ('?' :: rest) =
      if (rest.takeWhile notHash).isEmpty then findQuery rest
      else some (rest.takeWhile notHash) := rfl

/-- C8 (claim): a request to `/` with query `gh=v` (for a `v` free of the
query metacharacters `&`, `#`, `%`, `+`) selects the remote-folder
descriptor `github`/`HEAD` with path `v` rooted with `/` when necessary,
and a request without `gh` selects the in-memory `/sample-folder`. -/
theorem root_gh_folder_selection (v : String) (hv : v ≠ "")
    (hclean : ∀ c ∈ v.data, c ≠ '&' ∧ c ≠ '#' ∧ c ≠ '%' ∧ c ≠ '+') :
    handleRootFolderUri ("/?gh=" ++ v) =
      ⟨"github", some "HEAD", if startsWithSlash v then v else "/" ++ v⟩
    ∧ handleRootFolderUri "/" = ⟨"memfs", none, "/sample-folder"⟩ := by
  refine ⟨?_, by decide⟩
  have hdata : ("/?gh=" ++ v).data = '/' :: '?' :: 'g' :: 'h' :: '=' :: v.data := by
    rw [String.data_append]
    rfl
  have hcap : ('g' :: 'h' :: '=' :: v.data).takeWhile notHash =
      'g' :: 'h' :: '=' :: v.data := by
    apply takeWhile_all
    intro x hx
    simp only [List.mem_cons] at hx
    rcases hx with rfl | rfl | rfl | hx
    · decide
    · decide
    · decide
    · exact bne_iff_ne.mpr (hclean x hx).2.1
  have h1 : findQuery ("/?gh=" ++ v).data = some ('g' :: 'h' :: '=' :: v.data) := by
    rw [hdata, findQuery_cons_ne '/' _ (by decide), findQuery_question, hcap]
    rfl
  have hnosep : splitOnChar '&' ('g' :: 'h' :: '=' :: v.data) =
      [('g' :: 'h' :: '=' :: v.data)] := by
    apply splitOnChar_no_sep
    intro x hx
    simp only [List.mem_cons] at hx
    rcases hx with rfl | rfl | rfl | hx
    · decide
    · decide
    · decide
    · exact (hclean x hx).1
  have hfd : formDecodeChars v.data = v.data :=
    formDecode_clean v.data
      (fun x hx => ⟨(hclean x hx).2.2.1, (hclean x hx).2.2.2⟩)
  have hpair : parsePair ('g' :: 'h' :: '=' :: v.data) = (['g', 'h'], v.data) := by
    rfl
  have hlist : (([('g' :: 'h' :: '=' :: v.data)].filter (fun p => !p.isEmpty)).map
      parsePair) = [parsePair ('g' :: 'h' :: '=' :: v.data)] := rfl
  have hpos : (String.mk (formDecodeChars ['g', 'h']) == "gh") = true := by decide
  have h2 : searchParamsGet ('g' :: 'h' :: '=' :: v.data) "gh" = some v := by
    simp only [searchParamsGet, hnosep, hlist, hpair]
    rw [find?_cons_true (fun pr : List Char × List Char =>
      String.mk (formDecodeChars pr.1) == "gh") (['g', 'h'], v.data) [] hpos]
    simp only [Option.map_some']
    show some (String.mk (formDecodeChars v.data)) = some v
    rw [hfd]
  have hvt : jsTruthy (some v) = true := by
    simp [jsTruthy, bne_iff_ne, hv]
  simp only [handleRootFolderUri, h1, Option.some_bind, h2]
  cases hsw : startsWithSlash v with
  | true => simp [hvt, hsw]
  | false =>
    have hslash : jsTruthy (some ("/" ++ v)) = true := by
      simp [jsTruthy, bne_iff_ne, str_ne_empty_left "/" v (by decide)]
    simp [hvt, hsw, hslash]

/-- Witness for C8 at `v = "owner/repo/path"`. -/
theorem root_gh_folder_selection_witness :
    handleRootFolderUri ("/?gh=" ++ "owner/repo/path") =
      ⟨"github", some "HEAD",
        if startsWithSlash "owner/repo/path" then "owner/repo/path"
        else "/" ++ "owner/repo/path"⟩
    ∧ handleRootFolderUri "/" = ⟨"memfs", none, "/sample-folder"⟩ :=
  root_gh_folder_selection "owner/repo/path" (by decide) (by decide)

end CodeWeb
